import Mathlib

/-!
Verification of the subtitle segmentation engine of the Video2Text
repository (`src/converter_app.py`).

The segmentation core is the function `generate_smart_srt`, a single
left-to-right pass over the recognized text that classifies each character
as hard-break punctuation, soft-break punctuation, generic whitespace, or
content, consumes one timestamp pair per content character, and emits SRT
cues.  The pass is embedded shallowly below: Python strings become
`List Char`, the loop state becomes the structure `SegState`, one loop
iteration becomes `procChar`, and the trailing-text flush becomes the
final step of `segmentCues`.  The surrounding input extraction
(`inference_result[0] if isinstance(inference_result, list) ...`,
`data.get('text', '')`, `data.get('timestamp', [])`) is embedded in
`generate_smart_srt` over a small model of the result object; the only
runtime error reachable in that extraction for well-typed result objects
is the `IndexError` raised by `[0]` on an empty list.
-/

namespace Video2Text

/-- Python `char in hard_break_chars` for `hard_break_chars = set("。？！；：?!;:\n")`
(converter_app.py line 138). -/
def isHard (c : Char) : Bool :=
  c == '。' || c == '？' || c == '！' || c == '；' || c == '：' ||
  c == '?' || c == '!' || c == ';' || c == ':' || c == '\n'

/-- Python `char in soft_break_chars` for `soft_break_chars = set("，、, ")`
(converter_app.py line 140): fullwidth comma, ideographic comma, ASCII
comma, ASCII space. -/
def isSoft (c : Char) : Bool :=
  c == '，' || c == '、' || c == ',' || c == ' '

/-- Python `char.isspace()`: the whitespace characters recognized by
`str.isspace` (ASCII whitespace, the C1/Unicode space and line separators
commonly produced in text). -/
def pyIsSpace (c : Char) : Bool :=
  c == ' ' || c == '\t' || c == '\n' || c == '\r' ||
  c == '\x0b' || c == '\x0c' ||
  c == '\x1c' || c == '\x1d' || c == '\x1e' || c == '\x1f' ||
  c == '\x85' || c == '\xa0' ||
  c == ' ' ||
  c == ' ' || c == ' ' || c == ' ' || c == ' ' ||
  c == ' ' || c == ' ' || c == ' ' || c == ' ' ||
  c == ' ' || c == ' ' || c == ' ' ||
  c == ' ' || c == ' ' || c == ' ' || c == ' ' ||
  c == '　'

/-- Python `is_punctuation = char in hard_break_chars or char in soft_break_chars
or char.isspace()` (converter_app.py line 153). -/
def isPunct (c : Char) : Bool :=
  isHard c || isSoft c || pyIsSpace c

/-- A content unit: a character that is not punctuation/whitespace, hence
eligible to consume a timestamp pair. -/
def isContent (c : Char) : Bool :=
  !(isPunct c)

/-- Python `s.strip()` on a string viewed as a character list: drop leading
and trailing whitespace. -/
def pyStrip (l : List Char) : List Char :=
  ((l.dropWhile pyIsSpace).reverse.dropWhile pyIsSpace).reverse

/-- One SRT cue as assembled by one `should_flush` block of
`generate_smart_srt`: the running sentence index, the cue bounds in
milliseconds and the stripped cue text. -/
structure Cue where
  index : Nat
  start_ms : Int
  end_ms : Int
  text : List Char
deriving Repr, DecidableEq

/-- The mutable loop state of `generate_smart_srt` (converter_app.py lines
142-149): the emitted output (kept as structured cues rather than the
already-rendered string; `renderSrt` recovers the string), `sentence_idx`,
the timestamp cursor `ts_index`, and the current-cue buffer
`curr_text` / `curr_start` / `curr_end`. -/
structure SegState where
  cues : List Cue
  sentence_idx : Nat
  ts_index : Nat
  curr_text : List Char
  curr_start : Int
  curr_end : Int
deriving Repr, DecidableEq

/-- Initial loop state: `srt_content = ""`, `sentence_idx = 1`,
`ts_index = 0`, `curr_text = ""`, `curr_start = -1`, `curr_end = 0`. -/
def initState : SegState :=
  { cues := [], sentence_idx := 1, ts_index := 0,
    curr_text := [], curr_start := -1, curr_end := 0 }

/-- The flush block of `generate_smart_srt` (converter_app.py lines
183-195 and 197-202), applied once its guard has passed: fall back to
`curr_end` when `curr_start` is the unset sentinel `-1`, append the cue
built from `sentence_idx`, the bounds and the stripped buffer, bump
`sentence_idx`, and reset `curr_text` and `curr_start`. -/
def emitCue (st : SegState) : SegState :=
  let cs : Int := if st.curr_start == -1 then st.curr_end else st.curr_start
  { cues := st.cues ++ [{ index := st.sentence_idx, start_ms := cs,
                          end_ms := st.curr_end, text := pyStrip st.curr_text }],
    sentence_idx := st.sentence_idx + 1,
    ts_index := st.ts_index,
    curr_text := [],
    curr_start := -1,
    curr_end := st.curr_end }

/-- Step A of the loop body (converter_app.py lines 152-163): when the
character is not punctuation (`if not is_punctuation`) and the timestamp
cursor is in range, set `curr_start` on the first content character of the
cue, always update `curr_end`, and advance the cursor. -/
def stepTimestamp (ts : List (Int × Int)) (st : SegState) (c : Char) :
    SegState :=
  if isPunct c then st
  else if h : st.ts_index < ts.length then
    let p := ts.get ⟨st.ts_index, h⟩
    { st with
      curr_start := if st.curr_start == -1 then p.1 else st.curr_start,
      curr_end := p.2,
      ts_index := st.ts_index + 1 }
  else st

/-- Step C of the loop body (converter_app.py lines 168-180): the
`should_flush` decision on the buffer as it stands AFTER the character was
appended — hard break: always; soft break: only when
`len(curr_text) >= min_length`; otherwise never. -/
def shouldFlush (min_length : Int) (buf : List Char) (c : Char) : Bool :=
  if isHard c then true
  else if isSoft c then decide ((buf.length : Int) ≥ min_length)
  else false

/-- One iteration of the `for char in text` loop of `generate_smart_srt`
(converter_app.py lines 151-195): step A consumes a timestamp, step B
appends the character to the buffer, steps C-D flush when
`should_flush and curr_text.strip()`. -/
def procChar (ts : List (Int × Int)) (min_length : Int)
    (st : SegState) (c : Char) : SegState :=
  let st1 := stepTimestamp ts st c
  let st2 := { st1 with curr_text := st1.curr_text ++ [c] }
  if shouldFlush min_length st2.curr_text c && !(pyStrip st2.curr_text).isEmpty
  then emitCue st2 else st2

/-- The whole segmentation pass of `generate_smart_srt` as a cue list:
fold `procChar` over the text from `initState`, then perform the trailing
flush (`if curr_text.strip():`, converter_app.py lines 197-202). -/
def segmentCues (text : List Char) (ts : List (Int × Int))
    (min_length : Int) : List Cue :=
  let st := text.foldl (procChar ts min_length) initState
  if !(pyStrip st.curr_text).isEmpty then (emitCue st).cues else st.cues

/-- Python `f"{n:02}"` / `f"{n:03}"`: zero-pad the decimal rendering of an
integer to the given total width, the sign counting toward the width. -/
def pyPad (width : Nat) (n : Int) : String :=
  if n < 0 then
    let s := toString (-n)
    "-" ++ String.mk (List.replicate (width - 1 - s.length) '0') ++ s
  else
    let s := toString n
    String.mk (List.replicate (width - s.length) '0') ++ s

/-- `format_time` (converter_app.py lines 116-123): milliseconds to the
SRT `HH:MM:SS,mmm` representation.  Python computes on `ms / 1000` with
float floor-division and modulo; on integral millisecond values that
equals floor division and nonnegative modulo on the milliseconds
directly, written here with `Int.fdiv` / `Int.emod`. -/
def format_time (ms : Int) : String :=
  let hours := ms.fdiv 3600000
  let minutes := (ms.emod 3600000).fdiv 60000
  let seconds := (ms.emod 60000).fdiv 1000
  let milliseconds := ms.emod 1000
  pyPad 2 hours ++ ":" ++ pyPad 2 minutes ++ ":" ++ pyPad 2 seconds ++
    "," ++ pyPad 3 milliseconds

/-- The SRT block a single flush appends to `srt_content`:
`f"{sentence_idx}\n"`, the timecode line, the stripped text, blank line. -/
def cueBlock (c : Cue) : String :=
  toString c.index ++ "\n" ++
  format_time c.start_ms ++ " --> " ++ format_time c.end_ms ++ "\n" ++
  String.mk c.text ++ "\n\n"

/-- The accumulated `srt_content` string, recovered from the cue list. -/
def renderSrt (cues : List Cue) : String :=
  String.join (cues.map cueBlock)

/-- Model of the ASR result object read by `generate_smart_srt`: a dict
that may or may not carry a `text` string and a `timestamp` list of
millisecond pairs (`data.get` supplies `''` / `[]` when absent). -/
structure ResultData where
  text : Option (List Char)
  timestamp : Option (List (Int × Int))
deriving Repr, DecidableEq

/-- The argument shape accepted by `generate_smart_srt`: either a Python
list of result objects or a bare result object
(`inference_result[0] if isinstance(inference_result, list) else inference_result`). -/
inductive InferenceInput where
  | list : List ResultData → InferenceInput
  | single : ResultData → InferenceInput
deriving Repr, DecidableEq

/-- The runtime error reachable in the input extraction: `[0]` on an empty
Python list raises `IndexError`. -/
inductive PyError where
  | indexError : PyError
deriving Repr, DecidableEq

/-- `generate_smart_srt` (converter_app.py lines 125-204): extract `data`
(first element when given a list), default the `text` and `timestamp`
fields when absent, run the segmentation pass and return the rendered SRT
string. -/
def generate_smart_srt (inp : InferenceInput) (min_length : Int) :
    Except PyError String :=
  match inp with
  | .list [] => .error .indexError
  | .list (d :: _) =>
      .ok (renderSrt (segmentCues (d.text.getD []) (d.timestamp.getD []) min_length))
  | .single d =>
      .ok (renderSrt (segmentCues (d.text.getD []) (d.timestamp.getD []) min_length))

/-- Number of content units (timestamp-consuming characters) in a text. -/
def contentCount (text : List Char) : Nat :=
  (text.filter isContent).length

/-- Well-formed (chronological) timestamp input: every pair is ordered and
each pair ends no later than the next one starts. -/
def tsWellFormed (ts : List (Int × Int)) : Prop :=
  (∀ p ∈ ts, p.1 ≤ p.2) ∧ List.Pairwise (fun p q => p.2 ≤ q.1) ts

/-- The timing invariant maintained by the loop under well-formed
timestamps: all emitted cues are ordered, and when a cue is open
(`curr_start` set) its start lies below the tracked `curr_end` and below
the start of every timestamp pair the cursor has yet to consume. -/
def timeInv (ts : List (Int × Int)) (st : SegState) : Prop :=
  (∀ cue ∈ st.cues, cue.start_ms ≤ cue.end_ms) ∧
  (st.curr_start = -1 ∨
    (st.curr_start ≤ st.curr_end ∧
      ∀ k : Fin ts.length, st.ts_index ≤ k.val → st.curr_start ≤ (ts.get k).1))

/-! ### Helper lemmas -/

/-- A predicate preserved by every step of a fold holds of the fold. -/
theorem foldl_preserve {σ α : Type} (f : σ → α → σ) (P : σ → Prop)
    (hf : ∀ s a, P s → P (f s a)) :
    ∀ (l : List α) (s : σ), P s → P (l.foldl f s) := by
  intro l
  induction l with
  | nil => intro s hs; exact hs
  | cons a l ih => intro s hs; exact ih (f s a) (hf s a hs)

/-- The soft-break set, elementwise. -/
theorem soft_chars {c : Char} (h : isSoft c = true) :
    c = '，' ∨ c = '、' ∨ c = ',' ∨ c = ' ' := by
  simp only [isSoft, Bool.or_eq_true, beq_iff_eq] at h
  tauto

/-- Soft-break characters are not hard-break characters. -/
theorem soft_not_hard {c : Char} (h : isSoft c = true) : isHard c = false := by
  rcases soft_chars h with h | h | h | h <;> subst h <;> decide

/-- Soft-break characters are punctuation. -/
theorem soft_punct {c : Char} (h : isSoft c = true) : isPunct c = true := by
  simp [isPunct, h]

/-- Non-punctuation characters belong to none of the three classes. -/
theorem not_punct_elim {c : Char} (h : isPunct c = false) :
    isHard c = false ∧ isSoft c = false ∧ pyIsSpace c = false := by
  simp only [isPunct, Bool.or_eq_false_iff] at h
  tauto

/-- A nonempty `dropWhile p` result contains an element refuting `p`. -/
theorem dropWhile_has_neg {p : Char → Bool} :
    ∀ l : List Char, l.dropWhile p ≠ [] →
      ∃ c ∈ l.dropWhile p, p c = false := by
  intro l
  induction l with
  | nil => intro h; exact absurd rfl h
  | cons a l ih =>
      intro h
      by_cases hp : p a
      · rw [List.dropWhile_cons_of_pos hp] at h ⊢
        exact ih h
      · rw [List.dropWhile_cons_of_neg hp] at h ⊢
        exact ⟨a, List.mem_cons_self a l, Bool.not_eq_true _ ▸ eq_false_of_ne_true hp⟩

/-- A nonempty stripped buffer contains a non-whitespace character. -/
theorem pyStrip_has_nonspace {l : List Char} (h : pyStrip l ≠ []) :
    ∃ c ∈ pyStrip l, pyIsSpace c = false := by
  unfold pyStrip at h ⊢
  have h2 : ((l.dropWhile pyIsSpace).reverse.dropWhile pyIsSpace) ≠ [] := by
    intro hn; rw [hn] at h; exact h rfl
  obtain ⟨c, hc, hcp⟩ := dropWhile_has_neg _ h2
  exact ⟨c, List.mem_reverse.mpr hc, hcp⟩

/-- The hard-break set, elementwise. -/
theorem hard_chars {c : Char} (h : isHard c = true) :
    c = '。' ∨ c = '？' ∨ c = '！' ∨ c = '；' ∨ c = '：' ∨
    c = '?' ∨ c = '!' ∨ c = ';' ∨ c = ':' ∨ c = '\n' := by
  simp only [isHard, Bool.or_eq_true, beq_iff_eq] at h
  tauto

/-- Step A is the identity on punctuation characters. -/
theorem stepTimestamp_punct {ts : List (Int × Int)} {st : SegState}
    {c : Char} (hp : isPunct c = true) : stepTimestamp ts st c = st := by
  simp [stepTimestamp, hp]

/-- Step A never touches the emitted cues, the sentence counter or the
text buffer. -/
theorem stepTimestamp_fields (ts : List (Int × Int)) (st : SegState)
    (c : Char) :
    (stepTimestamp ts st c).cues = st.cues ∧
    (stepTimestamp ts st c).sentence_idx = st.sentence_idx ∧
    (stepTimestamp ts st c).curr_text = st.curr_text := by
  unfold stepTimestamp
  split
  · exact ⟨rfl, rfl, rfl⟩
  · split <;> exact ⟨rfl, rfl, rfl⟩

/-- A character in neither break set never asks for a flush. -/
theorem shouldFlush_not_punct {ml : Int} {buf : List Char} {c : Char}
    (hp : isPunct c = false) : shouldFlush ml buf c = false := by
  obtain ⟨h1, h2, _⟩ := not_punct_elim hp
  simp [shouldFlush, h1, h2]

/-- The record content of one flush. -/
theorem emitCue_fields (st : SegState) :
    (emitCue st).cues = st.cues ++
      [{ index := st.sentence_idx,
         start_ms := if st.curr_start == -1 then st.curr_end else st.curr_start,
         end_ms := st.curr_end, text := pyStrip st.curr_text }] ∧
    (emitCue st).sentence_idx = st.sentence_idx + 1 ∧
    (emitCue st).ts_index = st.ts_index ∧
    (emitCue st).curr_text = [] ∧
    (emitCue st).curr_start = -1 ∧
    (emitCue st).curr_end = st.curr_end :=
  ⟨rfl, rfl, rfl, rfl, rfl, rfl⟩

/-- One loop iteration either performs no flush (the state is the step-A
state with the character appended to the buffer) or — necessarily at a
punctuation character whose stripped buffer is non-empty — flushes the
appended buffer. -/
theorem procChar_cases (ts : List (Int × Int)) (ml : Int) (st : SegState)
    (c : Char) :
    procChar ts ml st c =
      { stepTimestamp ts st c with
        curr_text := (stepTimestamp ts st c).curr_text ++ [c] } ∨
    (isPunct c = true ∧ (pyStrip (st.curr_text ++ [c])).isEmpty = false ∧
      procChar ts ml st c = emitCue { st with curr_text := st.curr_text ++ [c] }) := by
  by_cases hp : isPunct c = true
  · simp only [procChar]
    rw [stepTimestamp_punct hp]
    split
    next h =>
      right
      refine ⟨hp, ?_, rfl⟩
      have h2 := ((Bool.and_eq_true _ _).mp h).2
      simpa using h2
    next h =>
      left
      rfl
  · have hp2 : isPunct c = false := eq_false_of_ne_true hp
    left
    simp only [procChar, shouldFlush_not_punct hp2, Bool.false_and,
      Bool.false_eq_true, if_false]

/-- The threshold `min_length` is consulted only at soft-break characters:
one loop step on a non-soft character is the same for any two thresholds. -/
theorem procChar_ml_irrel {ts : List (Int × Int)} {ml ml' : Int}
    {st : SegState} {c : Char} (h : isSoft c = false) :
    procChar ts ml st c = procChar ts ml' st c := by
  simp only [procChar, shouldFlush, h, Bool.false_eq_true, if_false]

/-- Folding the loop step over a text without soft-break characters is
the same for any two thresholds. -/
theorem foldl_procChar_ml_irrel {ts : List (Int × Int)} {ml ml' : Int} :
    ∀ (l : List Char) (st : SegState), (∀ c ∈ l, isSoft c = false) →
      l.foldl (procChar ts ml) st = l.foldl (procChar ts ml') st := by
  intro l
  induction l with
  | nil => intro st _; rfl
  | cons a l ih =>
      intro st h
      simp only [List.foldl_cons]
      rw [procChar_ml_irrel (h a (List.mem_cons_self a l))]
      exact ih _ fun c hc => h c (List.mem_cons_of_mem a hc)

/-- On a text without soft-break characters the whole segmentation pass is
independent of `min_length`. -/
theorem segmentCues_ml_irrel (text : List Char) (ts : List (Int × Int))
    (ml ml' : Int) (h : ∀ c ∈ text, isSoft c = false) :
    segmentCues text ts ml = segmentCues text ts ml' := by
  unfold segmentCues
  rw [foldl_procChar_ml_irrel text initState h]

/-! ### Claims -/

/-- Claim C2 (confirmed): for the input text `你好。世界！` with timestamps
`[(0,100),(100,200),(200,300),(300,400)]` and every `min_merge_length`,
the segmentation produces exactly two cues, `你好。` (0 → 200 ms) and
`世界！` (200 → 400 ms): a hard-break unit always terminates the current
cue regardless of buffer length, so the threshold never matters here. -/
theorem c2_hard_break_always_terminates :
    ∀ min_length : Int,
      segmentCues "你好。世界！".toList
          [(0, 100), (100, 200), (200, 300), (300, 400)] min_length =
        [{ index := 1, start_ms := 0, end_ms := 200, text := "你好。".toList },
         { index := 2, start_ms := 200, end_ms := 400, text := "世界！".toList }] := by
  intro min_length
  rw [segmentCues_ml_irrel _ _ min_length 10 (by decide)]
  decide

/-- Claim C10 (confirmed): the engine reads only the first element of a
list passed as the inference result; the output on a non-empty list of
result objects equals the output on its first element alone. -/
theorem c10_first_result_only :
    ∀ (d : ResultData) (rest : List ResultData) (min_length : Int),
      generate_smart_srt (.list (d :: rest)) min_length =
        generate_smart_srt (.single d) min_length :=
  fun _ _ _ => rfl

/-- Claim C5 (corrected), counterexample: a result object lacking both the
`text` string and the `timestamp` list does NOT make the engine fail; it
silently yields the empty output. -/
theorem c5_counterexample :
    generate_smart_srt (.single { text := none, timestamp := none }) 10 =
      .ok "" :=
  rfl

/-- Claim C5 (corrected), amended: absent `text` / `timestamp` fields are
silently defaulted to the empty string and the empty list (`data.get`
defaults), so a result object without `text` always produces `.ok ""`
whatever the `timestamp` field holds; the only failing input shape in the
extraction is an empty top-level result list, which raises `IndexError`. -/
theorem c5_amended_silent_defaults :
    ∀ (min_length : Int) (tsOpt : Option (List (Int × Int))),
      generate_smart_srt (.single { text := none, timestamp := tsOpt })
          min_length = .ok "" ∧
      generate_smart_srt (.list []) min_length = .error .indexError :=
  fun _ _ => ⟨rfl, rfl⟩

/-- Claim C1 (corrected), counterexample: with `min_merge_length = 3`,
after two buffered spaces a third space is a soft-break unit whose
inclusive buffer length 3 reaches the threshold, yet the pass does not
terminate the cue: the flush is additionally guarded by
`curr_text.strip()` being non-empty, so the all-whitespace buffer is kept
and keeps counting toward later soft-break decisions (the subsequent comma
flushes a `,` cue at inclusive length 4). -/
theorem c1_counterexample :
    isSoft ' ' = true ∧
    (((procChar [] 3 (procChar [] 3 initState ' ') ' ').curr_text.length + 1 : Int) ≥ 3 ∧
    (procChar [] 3 (procChar [] 3 (procChar [] 3 initState ' ') ' ') ' ').curr_text =
      [' ', ' ', ' '] ∧
    (procChar [] 3 (procChar [] 3 (procChar [] 3 initState ' ') ' ') ' ').cues = [] ∧
    segmentCues [' ', ' ', ' ', ',', 'a'] [] 3 =
      [{ index := 1, start_ms := 0, end_ms := 0, text := [','] },
       { index := 2, start_ms := 0, end_ms := 0, text := ['a'] }]) := by
  decide

/-- Claim C3 (corrected), counterexample: a cue consisting solely of
punctuation IS emitted: the text `。` alone yields one cue whose text is
the single hard-break character (the flush guard `curr_text.strip()`
strips only whitespace, not punctuation), with fallback timing 0 → 0. -/
theorem c3_counterexample :
    segmentCues ['。'] [] 7 =
      [{ index := 1, start_ms := 0, end_ms := 0, text := ['。'] }] ∧
    ['。'].all isPunct = true := by
  decide

/-- Claim C4 (corrected), counterexample: with `min_merge_length = 0` the
engine does not fail with any error; it returns a normal result in which
every soft break flushes (the length test is vacuously satisfied). -/
theorem c4_counterexample :
    (generate_smart_srt
        (.single { text := some ['a', ',', 'b'], timestamp := some [(0, 5), (5, 9)] })
        0).isOk = true ∧
    segmentCues ['a', ',', 'b'] [(0, 5), (5, 9)] 0 =
      [{ index := 1, start_ms := 0, end_ms := 5, text := ['a', ','] },
       { index := 2, start_ms := 5, end_ms := 9, text := ['b'] }] := by
  decide

/-- Claim C8 (corrected), counterexample: a single content character with
the non-well-formed timestamp pair `(5, 2)` produces a cue with
`start_ms = 5 > end_ms = 2`; `start_ms ≤ end_ms` is not guaranteed for
arbitrary timestamp input. -/
theorem c8_counterexample :
    ((segmentCues ['a'] [(5, 2)] 10).all fun c =>
      decide (c.start_ms ≤ c.end_ms)) = false := by
  decide

/-- A flush preserves the index bookkeeping: if the pending sentence index
is one past the number of emitted cues and the emitted indices are
`1, 2, ...`, the same holds after `emitCue`. -/
theorem emitCue_index_inv {st : SegState}
    (h : st.sentence_idx = st.cues.length + 1 ∧
         st.cues.map Cue.index = List.range' 1 st.cues.length) :
    (emitCue st).sentence_idx = (emitCue st).cues.length + 1 ∧
    (emitCue st).cues.map Cue.index =
      List.range' 1 (emitCue st).cues.length := by
  obtain ⟨h1, h2⟩ := h
  simp only [emitCue]
  constructor
  · simp [List.length_append, h1]
  · rw [List.map_append, h2, List.length_append]
    simp [h1, List.range'_1_concat, Nat.add_comm]

/-- Claim C7 (confirmed): for every input text, timestamp list and
`min_merge_length`, the indices of the emitted cues form the gapless
ascending sequence `1, 2, 3, ...` starting at 1, in emission order. -/
theorem c7_gapless_indices (text : List Char) (ts : List (Int × Int))
    (ml : Int) :
    (segmentCues text ts ml).map Cue.index =
      List.range' 1 (segmentCues text ts ml).length := by
  have hstep : ∀ (st : SegState) (c : Char),
      (st.sentence_idx = st.cues.length + 1 ∧
       st.cues.map Cue.index = List.range' 1 st.cues.length) →
      ((procChar ts ml st c).sentence_idx = (procChar ts ml st c).cues.length + 1 ∧
       (procChar ts ml st c).cues.map Cue.index =
         List.range' 1 (procChar ts ml st c).cues.length) := by
    intro st c h
    rcases procChar_cases ts ml st c with heq | ⟨_, _, heq⟩
    · rw [heq]
      obtain ⟨hc, hs, _⟩ := stepTimestamp_fields ts st c
      constructor
      · show (stepTimestamp ts st c).sentence_idx =
          (stepTimestamp ts st c).cues.length + 1
        rw [hc, hs]; exact h.1
      · show (stepTimestamp ts st c).cues.map Cue.index =
          List.range' 1 (stepTimestamp ts st c).cues.length
        rw [hc]; exact h.2
    · rw [heq]
      exact emitCue_index_inv ⟨h.1, h.2⟩
  have hfold := foldl_preserve (procChar ts ml) _ hstep text initState ⟨rfl, rfl⟩
  simp only [segmentCues]
  split
  · exact (emitCue_index_inv hfold).2
  · exact hfold.2

/-- A guarded flush appends a cue whose text is non-empty and contains a
non-whitespace character. -/
theorem emitCue_text_inv {st : SegState}
    (hguard : (pyStrip st.curr_text).isEmpty = false)
    (h : ∀ cue ∈ st.cues, cue.text ≠ [] ∧ ∃ ch ∈ cue.text, pyIsSpace ch = false) :
    ∀ cue ∈ (emitCue st).cues,
      cue.text ≠ [] ∧ ∃ ch ∈ cue.text, pyIsSpace ch = false := by
  intro cue hcue
  simp only [emitCue, List.mem_append, List.mem_singleton] at hcue
  rcases hcue with hcue | hcue
  · exact h cue hcue
  · subst hcue
    have hne : pyStrip st.curr_text ≠ [] := by
      intro hn; simp [hn] at hguard
    exact ⟨hne, pyStrip_has_nonspace hne⟩

/-- Claim C3 (corrected), amended: what the flush guard
`curr_text.strip()` actually rules out is a WHITESPACE-only cue, not a
punctuation-only one: every emitted cue, at intermediate and at final
flushes, has non-empty text containing at least one non-whitespace
character (which may well be punctuation, see the counterexample). -/
theorem c3_amended_no_whitespace_only_cues (text : List Char)
    (ts : List (Int × Int)) (ml : Int) :
    ((segmentCues text ts ml).all fun cue =>
      !cue.text.isEmpty && cue.text.any fun ch => !pyIsSpace ch) = true := by
  have hstep : ∀ (st : SegState) (c : Char),
      (∀ cue ∈ st.cues, cue.text ≠ [] ∧ ∃ ch ∈ cue.text, pyIsSpace ch = false) →
      ∀ cue ∈ (procChar ts ml st c).cues,
        cue.text ≠ [] ∧ ∃ ch ∈ cue.text, pyIsSpace ch = false := by
    intro st c h
    rcases procChar_cases ts ml st c with heq | ⟨_, hguard, heq⟩
    · rw [heq]
      intro cue hcue
      have hc : ({ stepTimestamp ts st c with
          curr_text := (stepTimestamp ts st c).curr_text ++ [c] } : SegState).cues =
          st.cues := (stepTimestamp_fields ts st c).1
      rw [hc] at hcue
      exact h cue hcue
    · rw [heq]
      exact emitCue_text_inv hguard h
  have hfold := foldl_preserve (procChar ts ml) _ hstep text initState
    (by intro cue hcue; exact absurd hcue (List.not_mem_nil cue))
  rw [List.all_eq_true]
  intro cue hcue
  have hprop : cue.text ≠ [] ∧ ∃ ch ∈ cue.text, pyIsSpace ch = false := by
    revert hcue
    simp only [segmentCues]
    split
    next hg => exact fun hcue => emitCue_text_inv (by simpa using hg) hfold cue hcue
    next hg => exact fun hcue => hfold cue hcue
  obtain ⟨h1, ch, hch, hch2⟩ := hprop
  simp only [Bool.and_eq_true, Bool.not_eq_true', List.any_eq_true]
  refine ⟨by simpa using h1, ch, hch, by simp [hch2]⟩

/-- Claim C1 (corrected), amended: at a soft-break unit the pass
terminates the current cue iff the buffer length counted in characters
INCLUDING the triggering character is `≥ min_merge_length` AND the buffer
including the trigger contains a non-whitespace character (the flush guard
`curr_text.strip()`); whenever it does not terminate — below the
threshold, or an all-whitespace buffer — the soft-break character stays in
the buffer and accumulation continues without dropping it. -/
theorem c1_amended_soft_break (ts : List (Int × Int)) (ml : Int)
    (st : SegState) (c : Char) (h : isSoft c = true) :
    ((procChar ts ml st c).curr_text = [] ↔
      ((st.curr_text.length : Int) + 1 ≥ ml ∧ pyStrip (st.curr_text ++ [c]) ≠ [])) ∧
    ((procChar ts ml st c).curr_text ≠ [] →
      procChar ts ml st c = { st with curr_text := st.curr_text ++ [c] }) ∧
    ((procChar ts ml st c).curr_text = [] →
      (procChar ts ml st c).cues.length = st.cues.length + 1) := by
  have hp := soft_punct h
  have hh := soft_not_hard h
  have key : (shouldFlush ml (st.curr_text ++ [c]) c &&
      !(pyStrip (st.curr_text ++ [c])).isEmpty) = true ↔
      ((st.curr_text.length : Int) + 1 ≥ ml ∧ pyStrip (st.curr_text ++ [c]) ≠ []) := by
    simp only [shouldFlush, hh, Bool.false_eq_true, if_false, h, if_true,
      Bool.and_eq_true, decide_eq_true_eq, Bool.not_eq_true',
      List.isEmpty_eq_false, List.length_append, List.length_singleton]
    constructor
    · rintro ⟨h1, h2⟩
      refine ⟨?_, h2⟩
      push_cast at h1 ⊢
      omega
    · rintro ⟨h1, h2⟩
      refine ⟨?_, h2⟩
      push_cast at h1 ⊢
      omega
  by_cases hcond : (st.curr_text.length : Int) + 1 ≥ ml ∧
      pyStrip (st.curr_text ++ [c]) ≠ []
  · have heq : procChar ts ml st c =
        emitCue { st with curr_text := st.curr_text ++ [c] } := by
      simp only [procChar]
      rw [stepTimestamp_punct hp, if_pos (key.mpr hcond)]
    rw [heq]
    refine ⟨iff_of_true rfl hcond, fun hne => absurd rfl hne, fun _ => ?_⟩
    simp [emitCue]
  · have heq : procChar ts ml st c =
        { st with curr_text := st.curr_text ++ [c] } := by
      simp only [procChar]
      rw [stepTimestamp_punct hp, if_neg fun hb => hcond (key.mp hb)]
    rw [heq]
    refine ⟨iff_of_false (by simp) hcond, fun _ => rfl, fun habs => ?_⟩
    simp at habs

/-- Claim C1 witness: at the comma with an empty buffer and threshold 1,
the instantiated characterization holds. -/
theorem c1_amended_witness :
    isSoft ',' = true ∧
    (((procChar [] 1 initState ',').curr_text = [] ↔
      ((initState.curr_text.length : Int) + 1 ≥ 1 ∧
        pyStrip (initState.curr_text ++ [',']) ≠ [])) ∧
    ((procChar [] 1 initState ',').curr_text ≠ [] →
      procChar [] 1 initState ',' =
        { initState with curr_text := initState.curr_text ++ [','] }) ∧
    ((procChar [] 1 initState ',').curr_text = [] →
      (procChar [] 1 initState ',').cues.length = initState.cues.length + 1)) :=
  ⟨by decide, c1_amended_soft_break [] 1 initState ',' (by decide)⟩

/-- Claim C4 (corrected), amended: the engine performs NO validation of
`min_merge_length`: with a zero or negative threshold it still returns a
result (no `InvalidArgument` failure exists in the code), and every
soft-break unit whose appended buffer has non-empty strip terminates the
cue, the length test being vacuous. -/
theorem c4_amended_no_validation (d : ResultData) (ts : List (Int × Int))
    (ml : Int) (st : SegState) (c : Char) (hml : ml ≤ 0) :
    (generate_smart_srt (.single d) ml).isOk = true ∧
    (isSoft c = true → pyStrip (st.curr_text ++ [c]) ≠ [] →
      (procChar ts ml st c).curr_text = []) := by
  refine ⟨rfl, fun hs hstrip => ?_⟩
  have hp := soft_punct hs
  have hh := soft_not_hard hs
  have hflush : shouldFlush ml (st.curr_text ++ [c]) c = true := by
    simp only [shouldFlush, hh, Bool.false_eq_true, if_false, hs, if_true,
      decide_eq_true_eq, List.length_append, List.length_singleton, ge_iff_le]
    have h0 : (0 : Int) ≤ (st.curr_text.length : Int) := Int.ofNat_nonneg _
    push_cast
    omega
  have hcondb : (shouldFlush ml (st.curr_text ++ [c]) c &&
      !(pyStrip (st.curr_text ++ [c])).isEmpty) = true := by
    rw [hflush, List.isEmpty_eq_false.mpr hstrip]
    rfl
  simp only [procChar]
  rw [stepTimestamp_punct hp, if_pos hcondb]
  rfl

/-- Claim C4 witness: at threshold 0 the engine returns a result. -/
theorem c4_amended_witness :
    (generate_smart_srt
      (.single { text := some ['a', ',', 'b'], timestamp := some [(0, 5), (5, 9)] })
      0).isOk = true :=
  (c4_amended_no_validation
    { text := some ['a', ',', 'b'], timestamp := some [(0, 5), (5, 9)] }
    [] 0 initState ',' (by decide)).1

/-- Claim C9 (corrected), counterexample: the tab character is whitespace
for the classification test but is in neither break set, so it never
terminates a cue: `a<TAB>b` with `min_merge_length = 1` stays one cue,
while `a b` (ASCII space, which IS in the soft-break set) splits in two. -/
theorem c9_counterexample :
    pyIsSpace '\t' = true ∧ isSoft '\t' = false ∧ isHard '\t' = false ∧
    segmentCues ['a', '\t', 'b'] [] 1 =
      [{ index := 1, start_ms := 0, end_ms := 0, text := ['a', '\t', 'b'] }] ∧
    segmentCues ['a', ' ', 'b'] [] 1 =
      [{ index := 1, start_ms := 0, end_ms := 0, text := ['a'] },
       { index := 2, start_ms := 0, end_ms := 0, text := ['b'] }] := by
  decide

/-- Claim C9 (corrected), amended: every whitespace character is
classified as non-content (it never consumes a timestamp and never
updates `curr_end`), but among whitespace only the ASCII space is in the
soft-break set and only the newline is in the hard-break set; any other
whitespace character (tab, carriage return, ideographic space, ...)
triggers no break at all: it is simply appended to the buffer. -/
theorem c9_amended_whitespace_classification (ts : List (Int × Int))
    (ml : Int) (st : SegState) (c : Char) (h : pyIsSpace c = true) :
    (procChar ts ml st c).ts_index = st.ts_index ∧
    (procChar ts ml st c).curr_end = st.curr_end ∧
    (isSoft c = true ↔ c = ' ') ∧
    (isHard c = true ↔ c = '\n') ∧
    (c ≠ ' ' → c ≠ '\n' →
      procChar ts ml st c = { st with curr_text := st.curr_text ++ [c] }) := by
  have hp : isPunct c = true := by simp [isPunct, h]
  have hsoft : isSoft c = true ↔ c = ' ' := by
    constructor
    · intro hs
      rcases soft_chars hs with h1 | h1 | h1 | h1 <;> subst h1 <;>
        first
        | rfl
        | exact absurd h (by decide)
    · intro h1; subst h1; decide
  have hhard : isHard c = true ↔ c = '\n' := by
    constructor
    · intro hs
      rcases hard_chars hs with h1|h1|h1|h1|h1|h1|h1|h1|h1|h1 <;> subst h1 <;>
        first
        | rfl
        | exact absurd h (by decide)
    · intro h1; subst h1; decide
  refine ⟨?_, ?_, hsoft, hhard, ?_⟩
  · rcases procChar_cases ts ml st c with heq | ⟨_, _, heq⟩
    · rw [heq]
      show (stepTimestamp ts st c).ts_index = st.ts_index
      rw [stepTimestamp_punct hp]
    · rw [heq]; rfl
  · rcases procChar_cases ts ml st c with heq | ⟨_, _, heq⟩
    · rw [heq]
      show (stepTimestamp ts st c).curr_end = st.curr_end
      rw [stepTimestamp_punct hp]
    · rw [heq]; rfl
  · intro hns hnn
    have hs : isSoft c = false := by
      rcases Bool.eq_false_or_eq_true (isSoft c) with hb | hb
      · exact absurd (hsoft.mp hb) hns
      · exact hb
    have hhd : isHard c = false := by
      rcases Bool.eq_false_or_eq_true (isHard c) with hb | hb
      · exact absurd (hhard.mp hb) hnn
      · exact hb
    have hsf : shouldFlush ml (st.curr_text ++ [c]) c = false := by
      simp [shouldFlush, hs, hhd]
    simp only [procChar]
    rw [stepTimestamp_punct hp, hsf]
    rfl

/-- Claim C9 witness: the tab character instantiates the amended
classification. -/
theorem c9_amended_witness :
    pyIsSpace '\t' = true ∧
    ((procChar [] 7 initState '\t').ts_index = initState.ts_index ∧
    (procChar [] 7 initState '\t').curr_end = initState.curr_end ∧
    (isSoft '\t' = true ↔ '\t' = ' ') ∧
    (isHard '\t' = true ↔ '\t' = '\n') ∧
    ('\t' ≠ ' ' → '\t' ≠ '\n' →
      procChar [] 7 initState '\t' =
        { initState with curr_text := initState.curr_text ++ ['\t'] })) :=
  ⟨by decide, c9_amended_whitespace_classification [] 7 initState '\t' (by decide)⟩

/-- Claim C6 (confirmed): a text with more content units than timestamp
pairs does not make the pass fail: the extraction returns a result; a
content character past the exhausted cursor consumes no timestamp and
leaves the whole timing state (including `end_ms`) untouched, only
growing the buffer; and a cue flushed while `start_ms` is still the
sentinel `-1` is emitted with both bounds equal to the last known
`end_ms`. -/
theorem c6_timestamp_exhaustion (text : List Char) (ts : List (Int × Int))
    (ml : Int) (_h : ts.length < contentCount text) :
    (generate_smart_srt
        (.single { text := some text, timestamp := some ts }) ml).isOk = true ∧
    (∀ (st : SegState) (c : Char), isPunct c = false →
      ts.length ≤ st.ts_index →
      procChar ts ml st c = { st with curr_text := st.curr_text ++ [c] }) ∧
    (∀ st : SegState, st.curr_start = -1 →
      (emitCue st).cues = st.cues ++
        [{ index := st.sentence_idx, start_ms := st.curr_end,
           end_ms := st.curr_end, text := pyStrip st.curr_text }]) := by
  refine ⟨rfl, ?_, ?_⟩
  · intro st c hp hts
    have hstep : stepTimestamp ts st c = st := by
      simp only [stepTimestamp, hp, Bool.false_eq_true, if_false]
      rw [dif_neg (Nat.not_lt.mpr hts)]
    simp only [procChar, hstep, shouldFlush_not_punct hp, Bool.false_and,
      Bool.false_eq_true, if_false]
  · intro st hcs
    simp [emitCue, hcs]

/-- Claim C6 witness: two content characters against one timestamp pair. -/
theorem c6_witness :
    (generate_smart_srt
      (.single { text := some ['a', 'b'], timestamp := some [(0, 1)] })
      10).isOk = true :=
  (c6_timestamp_exhaustion ['a', 'b'] [(0, 1)] 10 (by decide)).1

/-- A flush preserves the timing invariant: the appended cue is ordered
(equal bounds under the sentinel fallback, `curr_start ≤ curr_end`
otherwise) and the buffer reopens unset. -/
theorem emitCue_time_inv {ts : List (Int × Int)} {st : SegState}
    (h : timeInv ts st) : timeInv ts (emitCue st) := by
  constructor
  · intro cue hcue
    simp only [emitCue, List.mem_append, List.mem_singleton] at hcue
    rcases hcue with hc | hc
    · exact h.1 cue hc
    · subst hc
      by_cases hb : st.curr_start = -1
      · simp [hb]
      · have hbeq : (st.curr_start == -1) = false := by simp [hb]
        simp only [hbeq, Bool.false_eq_true, if_false]
        rcases h.2 with h2 | h2
        · exact absurd h2 hb
        · exact h2.1
  · left; rfl

/-- Step A preserves the timing invariant under well-formed timestamps. -/
theorem stepTimestamp_time_inv {ts : List (Int × Int)} {st : SegState}
    {c : Char} (hpair : ∀ p ∈ ts, p.1 ≤ p.2)
    (hget : ∀ (i j : Fin ts.length), i < j → (ts.get i).2 ≤ (ts.get j).1)
    (h : timeInv ts st) : timeInv ts (stepTimestamp ts st c) := by
  unfold stepTimestamp
  split
  · exact h
  · split
    next hlt =>
      refine ⟨h.1, Or.inr ?_⟩
      by_cases hcs : st.curr_start = -1
      · have hbeq : (st.curr_start == -1) = true := by simp [hcs]
        simp only [hbeq, if_true]
        refine ⟨hpair _ (ts.get_mem _ _), ?_⟩
        intro k hk
        have h1 : (ts.get ⟨st.ts_index, hlt⟩).1 ≤ (ts.get ⟨st.ts_index, hlt⟩).2 :=
          hpair _ (ts.get_mem _ _)
        have h2 : (ts.get ⟨st.ts_index, hlt⟩).2 ≤ (ts.get k).1 :=
          hget ⟨st.ts_index, hlt⟩ k hk
        exact le_trans h1 h2
      · have hbeq : (st.curr_start == -1) = false := by simp [hcs]
        simp only [hbeq, Bool.false_eq_true, if_false]
        rcases h.2 with h2 | h2
        · exact absurd h2 hcs
        · refine ⟨?_, fun k hk => h2.2 k (by omega)⟩
          have ha : st.curr_start ≤ (ts.get ⟨st.ts_index, hlt⟩).1 :=
            h2.2 ⟨st.ts_index, hlt⟩ (le_refl _)
          exact le_trans ha (hpair _ (ts.get_mem _ _))
    next => exact h

/-- One loop iteration preserves the timing invariant under well-formed
timestamps. -/
theorem procChar_time_inv {ts : List (Int × Int)} {ml : Int}
    {st : SegState} {c : Char} (hpair : ∀ p ∈ ts, p.1 ≤ p.2)
    (hget : ∀ (i j : Fin ts.length), i < j → (ts.get i).2 ≤ (ts.get j).1)
    (h : timeInv ts st) : timeInv ts (procChar ts ml st c) := by
  rcases procChar_cases ts ml st c with heq | ⟨_, _, heq⟩
  · rw [heq]
    exact stepTimestamp_time_inv hpair hget h
  · rw [heq]
    exact emitCue_time_inv h

/-- Claim C8 (corrected), amended: `start_ms ≤ end_ms` holds for every
emitted cue PROVIDED the timestamp list is well-formed (each pair ordered,
pairs chronologically non-overlapping); for arbitrary — e.g. inverted or
non-monotonic — timestamp pairs the code can emit `start_ms > end_ms`, as
the counterexample shows. -/
theorem c8_amended_sorted_timestamps (text : List Char)
    (ts : List (Int × Int)) (ml : Int) (hwf : tsWellFormed ts) :
    ((segmentCues text ts ml).all fun cue =>
      decide (cue.start_ms ≤ cue.end_ms)) = true := by
  obtain ⟨hpair, hsort⟩ := hwf
  have hget := List.pairwise_iff_get.mp hsort
  have hfold := foldl_preserve (procChar ts ml) (timeInv ts)
    (fun st c hst => procChar_time_inv hpair hget hst) text initState
    ⟨by intro cue hcue; exact absurd hcue (List.not_mem_nil cue), Or.inl rfl⟩
  rw [List.all_eq_true]
  intro cue hcue
  have hle : cue.start_ms ≤ cue.end_ms := by
    revert hcue
    simp only [segmentCues]
    split
    · exact fun hcue => (emitCue_time_inv hfold).1 cue hcue
    · exact fun hcue => hfold.1 cue hcue
  exact decide_eq_true hle

/-- Claim C8 witness: a well-formed two-pair timestamp list yields ordered
cues. -/
theorem c8_amended_witness :
    ((segmentCues ['a', 'b', '。'] [(0, 100), (100, 200)] 10).all fun cue =>
      decide (cue.start_ms ≤ cue.end_ms)) = true :=
  c8_amended_sorted_timestamps ['a', 'b', '。'] [(0, 100), (100, 200)] 10
    ⟨by decide, by decide⟩

end Video2Text
